import Mathlib

/-!
# Verification of the rpmsg / remoteproc core

A shallow embedding, in Lean 4, of the claim-relevant parts of the
remote-processor framework (`drivers/remoteproc/remoteproc.c`), the
virtio rpmsg bus (`drivers/rpmsg/virtio_rpmsg_bus.c`,
`drivers/rpmsg/rpmsg_virtio.c`), the name service
(`drivers/rpmsg/rpmsg_name_service.c`) and the OMAP mailbox glue
(`arch/arm/plat-omap/omap_rpmsg.c`).

Machine integers (`u32`, `u64`) are modelled as `Nat` with explicit
`% 2^32` / `% 2^64` where the C arithmetic can wrap; the signed
reference count is an `Int`.  Byte buffers are `List Nat` (each element
one byte).  Fallible operations return `Option` results.  Mutex-guarded
critical sections of the source become atomic steps of the embedding, so
a concurrent execution is an interleaving (a list) of those steps.
-/

namespace Rpmsg

/-- 2^32, the modulus of `u32` arithmetic. -/
def U32 : Nat := 4294967296

/-- 2^64, the modulus of `u64` arithmetic. -/
def U64 : Nat := 18446744073709551616

/-- Read one byte of a buffer; out-of-range reads yield 0 (the theorems
only evaluate in-range positions under their hypotheses). -/
def readByte (l : List Nat) (i : Nat) : Nat := l.getD i 0

/-- Little-endian `u32` read at byte offset `off`. -/
def readU32 (l : List Nat) (off : Nat) : Nat :=
  readByte l off + 256 * readByte l (off + 1) + 65536 * readByte l (off + 2) +
    16777216 * readByte l (off + 3)

/-- Little-endian `u64` read at byte offset `off`. -/
def readU64 (l : List Nat) (off : Nat) : Nat :=
  readU32 l off + 4294967296 * readU32 l (off + 4)

/-- Little-endian serialization of a `u32`. -/
def u32le (n : Nat) : List Nat :=
  [n % 256, n / 256 % 256, n / 65536 % 256, n / 16777216 % 256]

/-- Little-endian serialization of a `u64`. -/
def u64le (n : Nat) : List Nat :=
  u32le (n % U32) ++ u32le (n / U32)

/-! ## 4.A  Address-translation table (`rproc_da_to_pa`)

Source: `src/drivers/remoteproc/remoteproc.c` lines 144-160.
The C function scans a `struct rproc_mem_entry` array terminated by a
`size == 0` sentinel; the Lean list holds the entries before the
sentinel, and an interior zero-size entry stops the scan exactly as the
sentinel test `maps[i].size` does.  All fields are `u32`, so both the
range bound `me->da + me->size` and the returned `me->pa + offset` are
computed modulo 2^32. -/

/-- `struct rproc_mem_entry { u32 da; u32 pa; u32 size; }`. -/
structure MemEntry where
  da : Nat
  pa : Nat
  size : Nat
  deriving Repr, DecidableEq

/-- `rproc_da_to_pa`: linear scan for the entry containing `da`;
returns `pa + (da - entry.da)`, or 0 ("not mapped"; cf. the source
comment: address 0 is not mappable on ARM and serves as error value). -/
def rproc_da_to_pa : List MemEntry → Nat → Nat
  | [], _ => 0
  | me :: rest, da =>
    if me.size = 0 then 0
    else if me.da ≤ da ∧ da < (me.da + me.size) % U32 then
      (me.pa + (da - me.da)) % U32
    else rproc_da_to_pa rest da

/-- `da` lies in the (mathematical) half-open device range of an entry. -/
def inRange (me : MemEntry) (da : Nat) : Prop :=
  me.da ≤ da ∧ da < me.da + me.size

instance (me : MemEntry) (da : Nat) : Decidable (inRange me da) := by
  unfold inRange; infer_instance

/-- Well-formedness of one table entry: non-empty (a zero-size entry is
the array terminator and cannot occur as an entry), and neither the
device range nor the physical range wraps the 32-bit address space. -/
def entryWf (me : MemEntry) : Prop :=
  me.size ≠ 0 ∧ me.da + me.size < U32 ∧ me.pa + me.size ≤ U32

instance (me : MemEntry) : Decidable (entryWf me) := by
  unfold entryWf; infer_instance

/-- Entries are pairwise non-overlapping on `da`. -/
def tableDisjoint (maps : List MemEntry) : Prop :=
  maps.Pairwise (fun a b => a.da + a.size ≤ b.da ∨ b.da + b.size ≤ a.da)

/-! ## 4.D  Remote-processor lifecycle (`rproc_get` / `rproc_put` / loader)

Source: `src/drivers/remoteproc/remoteproc.c`.  Every lifecycle mutation
happens under the per-record mutex `rproc->lock`, so each operation below
is one atomic step.  The environment primitives assumed to succeed are:
mutex acquisition (`mutex_lock_interruptible`), the asynchronous firmware
request submission (`request_firmware_nowait`, whose synchronous failure
is rolled back inside `rproc_get` before returning), `ioremap`, and
memory allocation. -/

/-- Remote-processor states, from the enum in `include/linux/remoteproc.h`. -/
inductive RState
  | offline
  | suspended
  | running
  | loading
  | crashed
  deriving Repr, DecidableEq

/-- Platform operations vtable `struct rproc_ops`; the booleans give the
result of each call (`true` = returns 0). -/
structure Ops where
  startOk : Bool
  stopOk : Bool
  deriving Repr, DecidableEq

/-- `struct rproc`: the lifecycle-relevant runtime fields, plus
instrumentation counting the platform-ops invocations.  `count` is the C
`int` reference count; `completed` models `firmware_loading_complete`. -/
structure Rproc where
  state : RState
  count : Int
  completed : Bool
  startCount : Nat
  stopCount : Nat
  traceBuf0 : Option (Nat × Nat)
  traceBuf1 : Option (Nat × Nat)
  memoryMaps : List MemEntry
  deriving Repr, DecidableEq

/-- A freshly registered record: `kzalloc` zeroes every field and
`rproc_register` sets `state = RPROC_OFFLINE` (lines 483-497). -/
def mkRproc (maps : List MemEntry) : Rproc :=
  { state := .offline, count := 0, completed := false, startCount := 0,
    stopCount := 0, traceBuf0 := none, traceBuf1 := none, memoryMaps := maps }

/-- `rproc_get` (lines 377-423), the critical section on the record that
`__find_rproc_by_name` returned.  `if (rproc->count++)` bails out when
the prior count was nonzero; otherwise the completion is re-armed, the
asynchronous load is submitted and the state becomes `RPROC_LOADING`. -/
def rproc_get (r : Rproc) : Rproc :=
  if r.count ≠ 0 then { r with count := r.count + 1 }
  else { r with count := r.count + 1, completed := false, state := .loading }

/-- `rproc_put` (lines 426-471).  The caller has already waited on
`firmware_loading_complete`; then, under the mutex: decrement, bail out
while the count stays nonzero, otherwise unmap both trace buffers, stop
the processor only if it is actually `RPROC_RUNNING` (a failed stop
leaves the state untouched), and go `RPROC_OFFLINE`. -/
def rproc_put (ops : Ops) (r : Rproc) : Rproc :=
  let c := r.count - 1
  if c ≠ 0 then { r with count := c }
  else
    let r1 := { r with count := c, traceBuf0 := none, traceBuf1 := none }
    if r1.state = .running then
      let r2 := { r1 with stopCount := r1.stopCount + 1 }
      if ops.stopOk then { r2 with state := .offline } else r2
    else { r1 with state := .offline }

/-- Errors of the firmware-image path in `rproc_loader_cont`. -/
inductive LoadErr
  | tooSmall
  | badMagic
  | truncated
  | badAddress
  deriving Repr, DecidableEq

/-- The loop body of `rproc_handle_resources`, recursing on a fuel that
bounds the iteration count (the wrapper passes `len`, and each iteration
consumes 68 of `len`, so the fuel never runs out: the base case returns
the loop-exit value it would return anyway). -/
def handleResourcesAux (maps : List MemEntry) :
    Nat → List Nat → Nat → Nat → Option (Nat × Nat) → Option (Nat × Nat) →
    Nat × Option (Nat × Nat) × Option (Nat × Nat)
  | 0, _, _, boot, t0, t1 => (boot, t0, t1)
  | fuel + 1, bytes, len, boot, t0, t1 =>
    if len < 68 then (boot, t0, t1)
    else
      let ty := readU32 bytes 0
      let da := readU64 bytes 4
      let rlen := readU32 bytes 12
      let pa := rproc_da_to_pa maps (da % U32)
      let next := fun (b : Nat) (s0 s1 : Option (Nat × Nat)) =>
        handleResourcesAux maps fuel (bytes.drop 68) (len - 68) b s0 s1
      if ty = 4 then
        if t0.isSome ∧ t1.isSome then next boot t0 t1
        else
          let base := pa - pa % 4096
          match t0 with
          | none => next boot (some (base, rlen)) t1
          | some _ => next boot t0 (some (base, rlen))
      else if ty = 5 then next da t0 t1
      else next boot t0 t1

/-- `rproc_handle_resources` (lines 187-252): walk a packed
`struct fw_resource` array (68 bytes per entry: u32 type, u64 da,
u32 len, u32 reserved, 48-byte name) while `len >= sizeof(*rsc)`.
`RSC_TRACE` (4) fills the first empty of the two trace slots with the
page-aligned mapping base and the resource length (extra traces are
skipped); `RSC_BOOTADDR` (5) records `da` as the boot address; every
other type is only logged.  Returns the local boot address (initially 0)
and the updated trace slots. -/
def rproc_handle_resources (maps : List MemEntry) (bytes : List Nat) (len : Nat)
    (t0 t1 : Option (Nat × Nat)) :
    Nat × Option (Nat × Nat) × Option (Nat × Nat) :=
  handleResourcesAux maps len bytes len 0 t0 t1

/-- Accumulated observable effect of the section loop: the list of
`(pa, bytes)` memory writes in order, the number of sections processed,
the current boot address and the trace slots. -/
structure Acc where
  writes : List (Nat × List Nat)
  nsecs : Nat
  boot : Nat
  t0 : Option (Nat × Nat)
  t1 : Option (Nat × Nat)
  deriving Repr, DecidableEq

/-- The effect of processing one section whose checks passed (the tail
of the loop body): copy the `len` content bytes to the translated `pa`
and, for a `FW_RESOURCE` section (type 0), run the resource handler over
the freshly written bytes, overwriting the boot address and updating the
trace slots. -/
def stepAcc (maps : List MemEntry) (bytes : List Nat) (acc : Acc) : Acc :=
  let len := readU32 bytes 12
  let pa := rproc_da_to_pa maps (readU64 bytes 4 % U32)
  let content := (bytes.drop 16).take len
  let r := rproc_handle_resources maps content len acc.t0 acc.t1
  let acc1 :=
    if readU32 bytes 0 = 0 then { acc with boot := r.1, t0 := r.2.1, t1 := r.2.2 }
    else acc
  { acc1 with writes := acc1.writes ++ [(pa, content)], nsecs := acc1.nsecs + 1 }

/-- The loop body of the section loop, recursing on a fuel that bounds
the iteration count (the wrapper passes `left`, and each iteration
consumes at least 16 of `left`, so the fuel never runs out: the base
case returns the loop-exit value it would return anyway, as it is only
reachable with `left = 0`). -/
def processSectionsAux (maps : List MemEntry) :
    Nat → List Nat → Nat → Acc → Acc × Option LoadErr
  | 0, _, _, acc => (acc, none)
  | fuel + 1, bytes, left, acc =>
    if left ≤ 16 then (acc, none)
    else
      let len := readU32 bytes 12
      let left1 := left - 16
      if left1 < len then (acc, some .truncated)
      else if rproc_da_to_pa maps (readU64 bytes 4 % U32) = 0 then
        (acc, some .badAddress)
      else
        processSectionsAux maps fuel (bytes.drop (16 + len)) (left1 - len)
          (stepAcc maps bytes acc)

/-- The section loop of `rproc_loader_cont` (lines 292-341):
`while (left > sizeof(struct fw_section))` — note the strict comparison.
Each iteration reads the 16-byte packed header `{u32 type, u64 da,
u32 len}`, subtracts the header from `left`, fails `truncated` when
`left < len`, translates `da` (truncated to `u32`) failing `badAddress`
on 0, copies `len` content bytes to the translated `pa`, hands a
`FW_RESOURCE` (type 0) section to `rproc_handle_resources`, and advances
past the content. -/
def processSections (maps : List MemEntry) (bytes : List Nat) (left : Nat)
    (acc : Acc) : Acc × Option LoadErr :=
  processSectionsAux maps left bytes left acc

/-- The magic bytes "RPRC" accepted by this revision (line 280). -/
def rprcMagic : List Nat := [82, 80, 82, 67]

/-- `rproc_start` (lines 162-185): under the mutex, invoke the platform
`start` op; on success the state becomes `RPROC_RUNNING`, on failure it
is left untouched.  The invocation itself is counted unconditionally. -/
def rproc_start (ops : Ops) (r : Rproc) : Rproc :=
  let r1 := { r with startCount := r.startCount + 1 }
  if ops.startOk then { r1 with state := .running } else r1

/-- Result of one run of the asynchronous load callback. -/
structure LoadReport where
  rproc : Rproc
  result : Option LoadErr
  writes : List (Nat × List Nat)
  nsecs : Nat
  bootaddr : Nat
  deriving Repr, DecidableEq

/-- `rproc_loader_cont` (lines 254-350), for an image that did arrive
(`fw != NULL`): require `size >= sizeof(struct fw_header)` (12 bytes
packed), verify the "RPRC" magic, skip the `header_len`-byte textual
header and run the section loop; on full success call `rproc_start` with
the boot address the resource handler produced.  In every case
`complete_all(&rproc->firmware_loading_complete)` runs last.  The
initial `left` counter is the `u32` value of
`fw->size - sizeof(struct fw_header) - image->header_len`. -/
def rproc_loader_cont (ops : Ops) (fw : List Nat) (r : Rproc) : LoadReport :=
  if fw.length < 12 then
    ⟨{ r with completed := true }, some .tooSmall, [], 0, 0⟩
  else if fw.take 4 ≠ rprcMagic then
    ⟨{ r with completed := true }, some .badMagic, [], 0, 0⟩
  else
    let headerLen := readU32 fw 8
    let left := (((fw.length : Int) - 12 - headerLen) % (U32 : Int)).toNat
    let body := fw.drop (12 + headerLen)
    let acc0 : Acc := ⟨[], 0, 0, r.traceBuf0, r.traceBuf1⟩
    let (acc, err) := processSections r.memoryMaps body left acc0
    let r1 := { r with traceBuf0 := acc.t0, traceBuf1 := acc.t1 }
    match err with
    | some e => ⟨{ r1 with completed := true }, some e, acc.writes, acc.nsecs, acc.boot⟩
    | none =>
      let r2 := rproc_start ops r1
      ⟨{ r2 with completed := true }, none, acc.writes, acc.nsecs, acc.boot⟩

/-- The atomic lifecycle steps whose interleavings we consider: a `get`
critical section, the load-callback (with the image bytes that arrived),
and a `put` critical section (the wait on the completion forces every
`put` body to run after the load callback). -/
inductive Ev
  | get
  | load (fw : List Nat)
  | put
  deriving Repr, DecidableEq

/-- Run one lifecycle step. -/
def lifecycleStep (ops : Ops) (r : Rproc) : Ev → Rproc
  | .get => rproc_get r
  | .load fw => (rproc_loader_cont ops fw r).rproc
  | .put => rproc_put ops r

/-- Run an interleaving of lifecycle steps. -/
def runTrace (ops : Ops) (r : Rproc) (evs : List Ev) : Rproc :=
  evs.foldl (lifecycleStep ops) r

/-- A minimal healthy image: magic "RPRC", version 0, `header_len` 0 and
no sections. -/
def goodFw : List Nat := rprcMagic ++ u32le 0 ++ u32le 0

/-- Platform ops whose `start` and `stop` both succeed. -/
def goodOps : Ops := ⟨true, true⟩

/-- An abstract firmware section `{type, da, len, content}` used to
state what the section loop does on well-formed input. -/
structure FwSec where
  type : Nat
  da : Nat
  len : Nat
  content : List Nat
  deriving Repr, DecidableEq

/-- The wire bytes of a section: packed `{u32 type, u64 da, u32 len}`
header followed by the content. -/
def secBytes (s : FwSec) : List Nat :=
  u32le s.type ++ u64le s.da ++ u32le s.len ++ s.content

/-- The wire bytes of a section list. -/
def serializeSecs : List FwSec → List Nat
  | [] => []
  | s :: rest => secBytes s ++ serializeSecs rest

/-- A section the loop can process: the length field matches the
content, the fields fit their integer widths, and the device address
translates. -/
def secWf (maps : List MemEntry) (s : FwSec) : Prop :=
  s.content.length = s.len ∧ s.type < U32 ∧ s.da < U64 ∧ s.len < U32 ∧
    rproc_da_to_pa maps (s.da % U32) ≠ 0

instance (maps : List MemEntry) (s : FwSec) : Decidable (secWf maps s) := by
  unfold secWf; infer_instance

/-- The physical write a well-formed section performs. -/
def secWrite (maps : List MemEntry) (s : FwSec) : Nat × List Nat :=
  (rproc_da_to_pa maps (s.da % U32), s.content)

/-! ## Registry (`rproc_register`)

Source: `src/drivers/remoteproc/remoteproc.c` lines 474-519.  The
global list `rprocs` is modelled as an association list in registration
order; `__find_rproc_by_name` (lines 110-127) returns the first match. -/

/-- The registered processors, in registration order. -/
abbrev Registry := List (String × Rproc)

/-- `rproc_register`: reject null `dev`/`name`/`ops` with `-EINVAL`
(-22); otherwise unconditionally append a zeroed record in state
`RPROC_OFFLINE` — the source never looks for an existing record with the
same name.  Returns the new list and the C return value. -/
def rproc_register (regs : Registry) (hasDev : Bool) (name : Option String)
    (hasOps : Bool) (maps : List MemEntry) : Registry × Int :=
  match name with
  | none => (regs, -22)
  | some n =>
    if hasDev = false ∨ hasOps = false then (regs, -22)
    else (regs ++ [(n, mkRproc maps)], 0)

/-- `__find_rproc_by_name`: first list entry with the given name. -/
def find_rproc_by_name (regs : Registry) (name : String) : Option Rproc :=
  (regs.find? (fun p => p.1 = name)).map Prod.snd

/-! ## 4.G  Endpoint table (`rpmsg_create_ept`)

Source: `src/drivers/rpmsg/virtio_rpmsg_bus.c` lines 135-197 (the copy
in `src/drivers/rpmsg/rpmsg_virtio.c` lines 53-115 is line-for-line
identical up to the container struct).  The kernel `idr` library is
external to the repository and is modelled by its documented contract:
`idr_get_new_above(idr, ptr, starting_id, &id)` binds the smallest
unused id ≥ `starting_id`; `idr_remove(idr, id)` deletes the binding of
`id`; `idr_find(idr, id)` returns the bound pointer or NULL. -/

/-- `RPMSG_ADDR_ANY` (`include/linux/rpmsg.h`). -/
def RPMSG_ADDR_ANY : Nat := 4294967295

/-- `RP_MSG_RESERVED_ADDRESSES`: dynamic allocation starts at 1024. -/
def RP_MSG_RESERVED_ADDRESSES : Nat := 1024

/-- `struct rpmsg_endpoint`: callback (an opaque identifier, `none`
models a NULL function pointer), private data, bound address. -/
structure Ept where
  cb : Option Nat
  priv : Nat
  addr : Nat
  deriving Repr, DecidableEq

/-- The idr of endpoints: an association list from bound address to
endpoint (the operations keep the keys distinct). -/
abbrev EptTable := List (Nat × Ept)

/-- The bound addresses. -/
def idrKeys (t : EptTable) : List Nat := t.map Prod.fst

/-- Search upward from `n` for an id not in `keys`; the fuel is an upper
bound on the number of occupied probes. -/
def idrFindFreeAux (keys : List Nat) : Nat → Nat → Nat
  | 0, n => n
  | fuel + 1, n => if n ∈ keys then idrFindFreeAux keys fuel (n + 1) else n

/-- Smallest id ≥ `start` that is unused in `t` (fuel `|t| + 1` always
suffices when the keys are distinct). -/
def idrFindFree (t : EptTable) (start : Nat) : Nat :=
  idrFindFreeAux (idrKeys t) (t.length + 1) start

/-- `idr_get_new_above`: bind the smallest unused id ≥ `start` to the
(freshly `kzalloc`ed) endpoint and report it. -/
def idr_get_new_above (t : EptTable) (e : Ept) (start : Nat) : EptTable × Nat :=
  let id := idrFindFree t start
  ((id, e) :: t, id)

/-- `idr_remove`: delete the binding of `id`. -/
def idr_remove (t : EptTable) (id : Nat) : EptTable :=
  t.filter (fun p => p.1 ≠ id)

/-- `idr_find`: the endpoint bound at `id`, if any. -/
def idr_find (t : EptTable) (id : Nat) : Option Ept :=
  (t.find? (fun p => p.1 = id)).map Prod.snd

/-- Overwrite the value bound at `id` (the C code mutates the object the
idr already points to when it assigns `ept->addr = tmpaddr`). -/
def idrSet (t : EptTable) (id : Nat) (e : Ept) : EptTable :=
  t.map (fun p => if p.1 = id then (id, e) else p)

/-- `rpmsg_create_ept` (lines 135-185): request
`RP_MSG_RESERVED_ADDRESSES` for `RPMSG_ADDR_ANY`, otherwise the caller's
address; allocate via `idr_get_new_above`; when a concrete address was
requested but a different id came back, the address is in use — the
error path removes id `request` from the idr (the source really removes
`request`, not the freshly allocated `tmpaddr`) and frees the endpoint.
On success `ept->addr = tmpaddr` and the endpoint is returned. -/
def rpmsg_create_ept (t : EptTable) (cb : Option Nat) (priv : Nat) (addr : Nat) :
    EptTable × Option Ept :=
  let ept : Ept := { cb := cb, priv := priv, addr := 0 }
  let request := if addr = RPMSG_ADDR_ANY then RP_MSG_RESERVED_ADDRESSES else addr
  let (t1, tmpaddr) := idr_get_new_above t ept request
  if addr ≠ RPMSG_ADDR_ANY ∧ tmpaddr ≠ addr then
    (idr_remove t1 request, none)
  else
    let ept1 := { ept with addr := tmpaddr }
    (idrSet t1 tmpaddr ept1, some ept1)

/-- One request of a `create_endpoint` sequence. -/
inductive EptReq
  | anyAddr
  | fixed (a : Nat)
  deriving Repr, DecidableEq

/-- The address a request passes to `rpmsg_create_ept`. -/
def EptReq.addr : EptReq → Nat
  | .anyAddr => RPMSG_ADDR_ANY
  | .fixed a => a

/-- Run a sequence of `rpmsg_create_ept` calls, collecting the results. -/
def runCreates (t : EptTable) : List EptReq → EptTable × List (Option Ept)
  | [] => (t, [])
  | req :: rest =>
    let (t1, r) := rpmsg_create_ept t none 0 req.addr
    let (t2, rs) := runCreates t1 rest
    (t2, r :: rs)

/-- The addresses of the successfully created endpoints of a result
sequence. -/
def allocatedAddrs (rs : List (Option Ept)) : List Nat :=
  rs.filterMap (fun o => o.map Ept.addr)

/-! ## 4.F  RX dispatch (`rpmsg_recv_done`)

Source: `src/drivers/rpmsg/virtio_rpmsg_bus.c` lines 396-442.  The used
ring of the RX virtqueue is the list of messages in the order the remote
published them; `virtqueue_get_buf` pops the oldest.  Re-adding the slot
to the ring is modelled by the `rxAvail` counter (the WARN_ON at probe
time documents that the add cannot fail: a slot was just removed). -/

/-- A received message: the `rpmsg_hdr` fields the dispatcher reads,
plus the payload bytes. -/
structure RxMsg where
  src : Nat
  dst : Nat
  len : Nat
  data : List Nat
  deriving Repr, DecidableEq

/-- Per-transport receive state. -/
structure VrpState where
  rxUsed : List RxMsg
  endpoints : EptTable
  rxAvail : Nat
  kicked : Bool
  deriving Repr, DecidableEq

/-- What one invocation of the receive callback did. -/
inductive RxDispatch
  | nothing
  | delivered (cb : Nat) (data : List Nat) (len : Nat) (priv : Nat) (src : Nat)
  | dropped
  deriving Repr, DecidableEq

/-- `rpmsg_recv_done`: pop one used buffer (none pending → warn and
return, no re-publish); look up the endpoint bound at `msg->dst`; if it
exists and has a callback, invoke it with
`(payload, msg->len, ept->priv, msg->src)`, else warn and drop; finally
put the slot back on the RX ring and kick the remote. -/
def rpmsg_recv_done (s : VrpState) : VrpState × RxDispatch :=
  match s.rxUsed with
  | [] => (s, .nothing)
  | msg :: rest =>
    let d := match idr_find s.endpoints msg.dst with
      | some e =>
        match e.cb with
        | some c => RxDispatch.delivered c msg.data msg.len e.priv msg.src
        | none => RxDispatch.dropped
      | none => RxDispatch.dropped
    ({ s with rxUsed := rest, rxAvail := s.rxAvail + 1, kicked := true }, d)

/-! ## 4.I  Name service (`rpmsg_ns_cb`)

Source: `src/drivers/rpmsg/rpmsg_name_service.c` lines 25-61.  The
callback validates the length against `sizeof(struct rpmsg_ns_msg)`
(32-byte name + u32 addr + u32 flags = 40 bytes), forces a null
terminator at `name[31]`, and creates or destroys the channel
`{name, src = RPMSG_ADDR_ANY, dst = addr}`. -/

/-- `RPMSG_NAME_SIZE` (kernel `mod_devicetable.h`). -/
def RPMSG_NAME_SIZE : Nat := 32

/-- The C string a NUL-terminated byte buffer denotes. -/
def cstr (l : List Nat) : List Nat := l.takeWhile (fun b => b ≠ 0)

/-- A bus-visible channel `{name, src, dst}` (the name is the effective
C string). -/
structure NsChannel where
  name : List Nat
  src : Nat
  dst : Nat
  deriving Repr, DecidableEq

/-- Modelled from the spec: the channel-info based
`rpmsg_create_channel(vrp, &chinfo)` that `rpmsg_ns_cb` calls is absent
from src (only a 4-argument variant exists there); §4.I says "CREATE:
create a channel `{name, src=ADDR_ANY, dst=addr}` under the current
transport". -/
def ns_create_channel (chans : List NsChannel) (name : List Nat) (addr : Nat) :
    List NsChannel :=
  chans ++ [⟨name, RPMSG_ADDR_ANY, addr⟩]

/-- Modelled from the spec: the channel-info based
`rpmsg_destroy_channel(vrp, &chinfo)` that `rpmsg_ns_cb` calls is absent
from src; §4.I says "DESTROY: locate the channel matching
`{name, dst=addr}` and destroy it". -/
def ns_destroy_channel (chans : List NsChannel) (name : List Nat) (addr : Nat) :
    List NsChannel :=
  chans.eraseP (fun c => decide (c.name = name ∧ c.dst = addr))

/-- `rpmsg_ns_cb`: reject any message whose length differs from
`sizeof(struct rpmsg_ns_msg)`; force `name[31] = 0`; read `addr` and
`flags`; `flags & RPMSG_NS_DESTROY` selects destroy, otherwise create. -/
def rpmsg_ns_cb (chans : List NsChannel) (data : List Nat) (len : Nat) :
    List NsChannel :=
  if len ≠ 40 then chans
  else
    let name := cstr ((data.take 32).set 31 0)
    let addr := readU32 data 32
    let flags := readU32 data 36
    if flags &&& 1 ≠ 0 then ns_destroy_channel chans name addr
    else ns_create_channel chans name addr

/-- Serialize a name-service message `{name[32], u32 addr, u32 flags}`
from a 32-byte name buffer. -/
def nsMsgBytes (name : List Nat) (addr flags : Nat) : List Nat :=
  name ++ u32le addr ++ u32le flags

/-! ## OMAP mailbox callback (`omap_rpmsg_mbox_callback`)

Source: `src/arch/arm/plat-omap/omap_rpmsg.c` lines 167-211. -/

def RP_MBOX_READY : Nat := 4294967040
def RP_MBOX_PENDING_MSG : Nat := 4294967041
def RP_MBOX_CRASH : Nat := 4294967042
def RP_MBOX_ECHO_REQUEST : Nat := 4294967043
def RP_MBOX_ECHO_REPLY : Nat := 4294967044
def RP_MBOX_ABORT_REQUEST : Nat := 4294967045

/-- The per-transport fields the mailbox callback touches, including the
lifecycle state of the remote processor the transport drives
(`rpdev->rproc->state`). -/
structure OmapVproc where
  baseVqId : Nat
  numVqs : Nat
  rprocState : RState
  deriving Repr, DecidableEq

/-- Observable effect of one mailbox delivery. -/
structure MboxEffect where
  vproc : OmapVproc
  crashLogged : Bool
  echoLogged : Bool
  triggeredVq : Option Nat
  deriving Repr, DecidableEq

/-- `omap_rpmsg_mbox_callback`: `RP_MBOX_CRASH` only prints an error
("todo: smarter error handling here") and breaks; `RP_MBOX_ECHO_REPLY`
logs; `RP_MBOX_PENDING_MSG` is rewritten to `base_vq_id` and falls
through to the default arm, which ignores indices below `base_vq_id`
and otherwise services local virtqueue `msg - base_vq_id` when it is in
range.  No arm writes the remote processor's state. -/
def omap_rpmsg_mbox_callback (v : OmapVproc) (msg : Nat) : MboxEffect :=
  if msg = RP_MBOX_CRASH then ⟨v, true, false, none⟩
  else if msg = RP_MBOX_ECHO_REPLY then ⟨v, false, true, none⟩
  else
    let m := if msg = RP_MBOX_PENDING_MSG then v.baseVqId else msg
    if m < v.baseVqId then ⟨v, false, false, none⟩
    else if m - v.baseVqId < v.numVqs then ⟨v, false, false, some (m - v.baseVqId)⟩
    else ⟨v, false, false, none⟩

/-! ## Byte-level lemmas -/

theorem u32le_length (n : Nat) : (u32le n).length = 4 := rfl

theorem u64le_length (n : Nat) : (u64le n).length = 8 := by
  simp [u64le, u32le]

theorem readByte_append_right (a b : List Nat) (i : Nat) :
    readByte (a ++ b) (a.length + i) = readByte b i := by
  simp [readByte, List.getD_eq_getElem?_getD, List.getElem?_append_right]

theorem readU32_append_right (a b : List Nat) (i : Nat) :
    readU32 (a ++ b) (a.length + i) = readU32 b i := by
  have h1 : a.length + i + 1 = a.length + (i + 1) := by omega
  have h2 : a.length + i + 2 = a.length + (i + 2) := by omega
  have h3 : a.length + i + 3 = a.length + (i + 3) := by omega
  simp only [readU32, h1, h2, h3, readByte_append_right]

theorem readU32_u32le (n : Nat) (rest : List Nat) (h : n < U32) :
    readU32 (u32le n ++ rest) 0 = n := by
  simp only [readU32, readByte, u32le, U32] at *
  simp only [List.cons_append, List.getD_cons_zero, List.getD_cons_succ]
  omega

theorem readU64_u64le (n : Nat) (rest : List Nat) (h : n < U64) :
    readU64 (u64le n ++ rest) 0 = n := by
  have hlo : n % U32 < U32 := Nat.mod_lt _ (by simp [U32])
  have hhi : n / U32 < U32 := by
    simp only [U32, U64] at *
    omega
  have e1 : readU32 (u64le n ++ rest) 0 = n % U32 := by
    simpa [u64le] using readU32_u32le (n % U32) (u32le (n / U32) ++ rest) hlo
  have e2 : readU32 (u64le n ++ rest) 4 = n / U32 := by
    have hs : u64le n ++ rest = u32le (n % U32) ++ (u32le (n / U32) ++ rest) := by
      simp [u64le]
    rw [hs]
    have hl := readU32_append_right (u32le (n % U32)) (u32le (n / U32) ++ rest) 0
    rw [u32le_length] at hl
    simpa [readU32_u32le _ _ hhi] using hl
  simp only [readU64, e1, e2]
  exact Nat.mod_add_div n U32

/-! ## C2 — address translation -/

/-- C2 (amended): for every well-formed memory-map table — entries
non-overlapping on `da`, each entry non-empty with device range and
physical range that do not wrap the 32-bit address space — and every
device address `da`: if `da` lies in some entry's half-open range the
lookup returns `entry.pa + (da - entry.da)`, and if it lies in no
entry's range the lookup returns 0 (`NOT_FOUND`). -/
theorem da_to_pa_total_correct (maps : List MemEntry) (da : Nat)
    (hwf : ∀ e ∈ maps, entryWf e) (hdisj : tableDisjoint maps) :
    (∀ e ∈ maps, inRange e da → rproc_da_to_pa maps da = e.pa + (da - e.da)) ∧
    ((∀ e ∈ maps, ¬ inRange e da) → rproc_da_to_pa maps da = 0) := by
  induction maps with
  | nil => exact ⟨by simp, fun _ => rfl⟩
  | cons me rest ih =>
    obtain ⟨hsz, hdaw, hpaw⟩ := hwf me (List.mem_cons_self me rest)
    have hwf' : ∀ e ∈ rest, entryWf e := fun e he => hwf e (List.mem_cons_of_mem _ he)
    obtain ⟨hsep, hdisj'⟩ := List.pairwise_cons.mp hdisj
    have ihh := ih hwf' hdisj'
    have hmod : (me.da + me.size) % U32 = me.da + me.size := Nat.mod_eq_of_lt hdaw
    by_cases hin : inRange me da
    · have hstep : rproc_da_to_pa (me :: rest) da = (me.pa + (da - me.da)) % U32 := by
        rw [rproc_da_to_pa, if_neg hsz, if_pos]
        rw [hmod]
        exact hin
      have hlt : me.pa + (da - me.da) < U32 := by
        have h2 := hin.2
        unfold inRange at hin
        omega
      constructor
      · intro e he hine
        rcases List.mem_cons.mp he with rfl | he'
        · rw [hstep, Nat.mod_eq_of_lt hlt]
        · exfalso
          unfold inRange at hin hine
          rcases hsep e he' with hsplit | hsplit <;> omega
      · intro hnone
        exact absurd hin (hnone me (List.mem_cons_self me rest))
    · have hstep : rproc_da_to_pa (me :: rest) da = rproc_da_to_pa rest da := by
        rw [rproc_da_to_pa, if_neg hsz, if_neg]
        rw [hmod]
        exact hin
      constructor
      · intro e he hine
        rcases List.mem_cons.mp he with rfl | he'
        · exact absurd hine hin
        · rw [hstep]
          exact ihh.1 e he' hine
      · intro hnone
        rw [hstep]
        exact ihh.2 fun e he => hnone e (List.mem_cons_of_mem _ he)

/-- C2 counterexample: the entry `{da = 0xFFFFF000, pa = 0x1000,
size = 0x1000}` forms a non-overlapping table and mathematically
contains `da = 0xFFFFF000`, so the claim demands
`lookup = pa + (da - entry.da) = 0x1000`; but `me->da + me->size` wraps
to 0 in the `u32` comparison, so the code returns 0 (`NOT_FOUND`). -/
theorem da_to_pa_wrap_counterexample :
    tableDisjoint [⟨4294963200, 4096, 4096⟩] ∧
    inRange ⟨4294963200, 4096, 4096⟩ 4294963200 ∧
    (⟨4294963200, 4096, 4096⟩ : MemEntry).pa + (4294963200 - 4294963200) = 4096 ∧
    rproc_da_to_pa [⟨4294963200, 4096, 4096⟩] 4294963200 = 0 := by
  refine ⟨?_, by decide, by decide, by decide⟩
  simp [tableDisjoint]

/-- Witness for C2: the E1 table `{da=0xA0000000, pa=0x9CF00000,
size=0x100000}` at query `0xA0000010` translates to `0x9CF00010`, and at
the unmapped query `0x9FFFFFFF` returns `NOT_FOUND` (0). -/
theorem da_to_pa_total_correct_witness :
    rproc_da_to_pa [⟨2684354560, 2633437184, 1048576⟩] 2684354576 = 2633437200 ∧
    rproc_da_to_pa [⟨2684354560, 2633437184, 1048576⟩] 2684354559 = 0 := by
  have h1 := (da_to_pa_total_correct [⟨2684354560, 2633437184, 1048576⟩] 2684354576
      (by decide) (by simp [tableDisjoint])).1
      ⟨2684354560, 2633437184, 1048576⟩ (by simp) (by decide)
  have h2 := (da_to_pa_total_correct [⟨2684354560, 2633437184, 1048576⟩] 2684354559
      (by decide) (by simp [tableDisjoint])).2 (by decide)
  exact ⟨by rw [h1]; norm_num, h2⟩

/-! ## Lifecycle lemmas (C1, C5) -/

theorem runTrace_append (ops : Ops) (r : Rproc) (l1 l2 : List Ev) :
    runTrace ops r (l1 ++ l2) = runTrace ops (runTrace ops r l1) l2 := by
  simp [runTrace, List.foldl_append]

theorem runTrace_cons (ops : Ops) (r : Rproc) (e : Ev) (l : List Ev) :
    runTrace ops r (e :: l) = runTrace ops (lifecycleStep ops r e) l := rfl

/-- Every `rproc_get` after the first only increments the count. -/
theorem runTrace_gets (ops : Ops) (n : Nat) :
    ∀ r : Rproc, 0 < r.count →
      runTrace ops r (List.replicate n .get) = { r with count := r.count + n } := by
  induction n with
  | zero =>
    intro r _
    simp [runTrace]
  | succ n ih =>
    intro r h
    rw [List.replicate_succ, runTrace_cons]
    have hg : lifecycleStep ops r .get = { r with count := r.count + 1 } := by
      simp only [lifecycleStep, rproc_get, if_pos (by omega : r.count ≠ 0)]
    rw [hg, ih { r with count := r.count + 1 } (show (0 : Int) < r.count + 1 by omega)]
    have harith : r.count + 1 + (n : Int) = r.count + ((n : Int) + 1) := by ring
    show ({ r with count := r.count + 1 + (n : Int) } : Rproc) = _
    rw [harith]
    push_cast
    rfl

/-- Every `rproc_put` except the last only decrements the count. -/
theorem runTrace_puts (ops : Ops) (n : Nat) :
    ∀ r : Rproc, (n : Int) < r.count →
      runTrace ops r (List.replicate n .put) = { r with count := r.count - n } := by
  induction n with
  | zero =>
    intro r _
    simp [runTrace]
  | succ n ih =>
    intro r h
    push_cast at h
    rw [List.replicate_succ, runTrace_cons]
    have hp : lifecycleStep ops r .put = { r with count := r.count - 1 } := by
      simp only [lifecycleStep, rproc_put]
      rw [if_pos (by omega : r.count - 1 ≠ 0)]
    rw [hp, ih { r with count := r.count - 1 } (show (n : Int) < r.count - 1 by omega)]
    show ({ r with count := r.count - 1 - (n : Int) } : Rproc) = _
    have harith : r.count - 1 - (n : Int) = r.count - ((n : Int) + 1) := by ring
    rw [harith]
    push_cast
    rfl

/-- Loading the minimal healthy image: the parser succeeds with no
sections, `start` is invoked once and succeeds, and the completion is
signalled. -/
theorem loader_cont_goodFw (r : Rproc) :
    rproc_loader_cont goodOps goodFw r =
      ⟨{ r with state := .running, startCount := r.startCount + 1, completed := true },
        none, [], 0, 0⟩ := rfl

/-- C1: for every interleaving of N concurrent `get` calls followed by
N `put` calls (N ≥ 1) on a registered processor — i.e. any k with
1 ≤ k ≤ N such that the asynchronous load callback (which every `put`
waits for) runs after the k-th `get` — the platform `start` is invoked
exactly once, the platform `stop` is invoked exactly once, and the final
state is `RPROC_OFFLINE` with refcount 0. -/
theorem lifecycle_get_put_once (maps : List MemEntry) (N k : Nat)
    (hk1 : 1 ≤ k) (hkN : k ≤ N) :
    (runTrace goodOps (mkRproc maps)
        (List.replicate k Ev.get ++ Ev.load goodFw ::
          (List.replicate (N - k) Ev.get ++ List.replicate N Ev.put))).startCount = 1 ∧
    (runTrace goodOps (mkRproc maps)
        (List.replicate k Ev.get ++ Ev.load goodFw ::
          (List.replicate (N - k) Ev.get ++ List.replicate N Ev.put))).stopCount = 1 ∧
    (runTrace goodOps (mkRproc maps)
        (List.replicate k Ev.get ++ Ev.load goodFw ::
          (List.replicate (N - k) Ev.get ++ List.replicate N Ev.put))).state = .offline ∧
    (runTrace goodOps (mkRproc maps)
        (List.replicate k Ev.get ++ Ev.load goodFw ::
          (List.replicate (N - k) Ev.get ++ List.replicate N Ev.put))).count = 0 := by
  obtain ⟨k', rfl⟩ : ∃ k', k = k' + 1 := ⟨k - 1, by omega⟩
  obtain ⟨n', hN⟩ : ∃ n', N = n' + 1 := ⟨N - 1, by omega⟩
  have h1 : runTrace goodOps (mkRproc maps) (List.replicate (k' + 1) Ev.get) =
      ⟨.loading, 1 + (k' : Int), false, 0, 0, none, none, maps⟩ := by
    rw [List.replicate_succ, runTrace_cons]
    have hg0 : lifecycleStep goodOps (mkRproc maps) .get =
        (⟨.loading, 1, false, 0, 0, none, none, maps⟩ : Rproc) := by
      simp only [lifecycleStep, rproc_get, mkRproc]
      norm_num
    rw [hg0, runTrace_gets goodOps k' _ (by norm_num)]
  have h2 : lifecycleStep goodOps
      ⟨.loading, 1 + (k' : Int), false, 0, 0, none, none, maps⟩ (.load goodFw) =
      ⟨.running, 1 + (k' : Int), true, 1, 0, none, none, maps⟩ := by
    simp only [lifecycleStep, loader_cont_goodFw]
  have h3 : runTrace goodOps ⟨.running, 1 + (k' : Int), true, 1, 0, none, none, maps⟩
      (List.replicate (N - (k' + 1)) Ev.get) =
      ⟨.running, (N : Int), true, 1, 0, none, none, maps⟩ := by
    rw [runTrace_gets goodOps _ _ (by show (0 : Int) < 1 + (k' : Int); omega)]
    simp only [Rproc.mk.injEq, and_true, true_and]
    omega
  have h4 : runTrace goodOps ⟨.running, (N : Int), true, 1, 0, none, none, maps⟩
      (List.replicate N Ev.put) = ⟨.offline, 0, true, 1, 1, none, none, maps⟩ := by
    have hdec : runTrace goodOps ⟨.running, (N : Int), true, 1, 0, none, none, maps⟩
        (List.replicate n' Ev.put) =
        ⟨.running, 1, true, 1, 0, none, none, maps⟩ := by
      rw [runTrace_puts goodOps n' _ (by show (n' : Int) < (N : Int); omega)]
      simp only [Rproc.mk.injEq, and_true, true_and]
      omega
    have hsplit : List.replicate N Ev.put = List.replicate n' Ev.put ++ [Ev.put] := by
      rw [hN, List.replicate_succ']
    rw [hsplit, runTrace_append, hdec]
    show lifecycleStep goodOps ⟨.running, 1, true, 1, 0, none, none, maps⟩ .put = _
    simp only [lifecycleStep, rproc_put]
    norm_num
    intro h
    exact absurd h (by decide)
  rw [runTrace_append, h1, runTrace_cons, h2, runTrace_append, h3, h4]
  exact ⟨rfl, rfl, rfl, rfl⟩

/-- Witness for C1: five gets (the load callback landing after the
second), then five puts, on a freshly registered record. -/
theorem lifecycle_get_put_once_witness :
    (runTrace goodOps (mkRproc [])
        (List.replicate 2 Ev.get ++ Ev.load goodFw ::
          (List.replicate (5 - 2) Ev.get ++ List.replicate 5 Ev.put))).startCount = 1 ∧
    (runTrace goodOps (mkRproc [])
        (List.replicate 2 Ev.get ++ Ev.load goodFw ::
          (List.replicate (5 - 2) Ev.get ++ List.replicate 5 Ev.put))).stopCount = 1 ∧
    (runTrace goodOps (mkRproc [])
        (List.replicate 2 Ev.get ++ Ev.load goodFw ::
          (List.replicate (5 - 2) Ev.get ++ List.replicate 5 Ev.put))).state = .offline ∧
    (runTrace goodOps (mkRproc [])
        (List.replicate 2 Ev.get ++ Ev.load goodFw ::
          (List.replicate (5 - 2) Ev.get ++ List.replicate 5 Ev.put))).count = 0 :=
  lifecycle_get_put_once [] 5 2 (by norm_num) (by norm_num)

/-- C5: an image whose magic is not "RPRC" fails the load with
`badMagic`, never invokes the platform `start`, leaves the state
`RPROC_LOADING` (with the completion signalled), and the subsequent
`put` transitions the record to `RPROC_OFFLINE` without invoking the
platform `stop`. -/
theorem bad_magic_loading_then_offline (maps : List MemEntry) (fw : List Nat)
    (h12 : 12 ≤ fw.length) (hm : fw.take 4 ≠ rprcMagic) :
    (rproc_loader_cont goodOps fw (rproc_get (mkRproc maps))).result =
      some .badMagic ∧
    (rproc_loader_cont goodOps fw (rproc_get (mkRproc maps))).rproc.startCount = 0 ∧
    (rproc_loader_cont goodOps fw (rproc_get (mkRproc maps))).rproc.state = .loading ∧
    (rproc_loader_cont goodOps fw (rproc_get (mkRproc maps))).rproc.completed = true ∧
    (rproc_put goodOps
        (rproc_loader_cont goodOps fw (rproc_get (mkRproc maps))).rproc).state =
      .offline ∧
    (rproc_put goodOps
        (rproc_loader_cont goodOps fw (rproc_get (mkRproc maps))).rproc).stopCount =
      0 := by
  have hget : rproc_get (mkRproc maps) =
      ⟨.loading, 1, false, 0, 0, none, none, maps⟩ := by
    simp only [rproc_get, mkRproc]
    norm_num
  have hld : rproc_loader_cont goodOps fw
      ⟨.loading, 1, false, 0, 0, none, none, maps⟩ =
      ⟨⟨.loading, 1, true, 0, 0, none, none, maps⟩, some .badMagic, [], 0, 0⟩ := by
    rw [rproc_loader_cont, if_neg (by omega), if_pos hm]
  have hput : rproc_put goodOps ⟨.loading, 1, true, 0, 0, none, none, maps⟩ =
      ⟨.offline, 0, true, 0, 0, none, none, maps⟩ := by
    simp only [rproc_put]
    norm_num
    intro h
    exact absurd h (by decide)
  rw [hget, hld]
  exact ⟨rfl, rfl, rfl, rfl, by rw [hput], by rw [hput]⟩

/-- Witness for C5: the magic "XXXX" on a 12-byte image. -/
theorem bad_magic_loading_then_offline_witness :
    (rproc_loader_cont goodOps [88, 88, 88, 88, 0, 0, 0, 0, 0, 0, 0, 0]
        (rproc_get (mkRproc []))).result = some .badMagic ∧
    (rproc_loader_cont goodOps [88, 88, 88, 88, 0, 0, 0, 0, 0, 0, 0, 0]
        (rproc_get (mkRproc []))).rproc.startCount = 0 ∧
    (rproc_loader_cont goodOps [88, 88, 88, 88, 0, 0, 0, 0, 0, 0, 0, 0]
        (rproc_get (mkRproc []))).rproc.state = .loading ∧
    (rproc_loader_cont goodOps [88, 88, 88, 88, 0, 0, 0, 0, 0, 0, 0, 0]
        (rproc_get (mkRproc []))).rproc.completed = true ∧
    (rproc_put goodOps (rproc_loader_cont goodOps [88, 88, 88, 88, 0, 0, 0, 0, 0, 0, 0, 0]
        (rproc_get (mkRproc []))).rproc).state = .offline ∧
    (rproc_put goodOps (rproc_loader_cont goodOps [88, 88, 88, 88, 0, 0, 0, 0, 0, 0, 0, 0]
        (rproc_get (mkRproc []))).rproc).stopCount = 0 :=
  bad_magic_loading_then_offline [] [88, 88, 88, 88, 0, 0, 0, 0, 0, 0, 0, 0]
    (by norm_num) (by decide)

/-! ## Section-loop lemmas (C3) -/

theorem stepAcc_writes (maps : List MemEntry) (bytes : List Nat) (acc : Acc) :
    (stepAcc maps bytes acc).writes = acc.writes ++
      [(rproc_da_to_pa maps (readU64 bytes 4 % U32),
        (bytes.drop 16).take (readU32 bytes 12))] := by
  by_cases h : readU32 bytes 0 = 0 <;> simp [stepAcc, h]

theorem stepAcc_nsecs (maps : List MemEntry) (bytes : List Nat) (acc : Acc) :
    (stepAcc maps bytes acc).nsecs = acc.nsecs + 1 := by
  by_cases h : readU32 bytes 0 = 0 <;> simp [stepAcc, h]

/-- The loop exits silently, reporting success, whenever the remaining
byte count is at most `sizeof(struct fw_section)` = 16. -/
theorem processSections_le16 (maps : List MemEntry) (bytes : List Nat)
    (left : Nat) (acc : Acc) (h : left ≤ 16) :
    processSections maps bytes left acc = (acc, none) := by
  unfold processSections
  cases left with
  | zero => rfl
  | succ n =>
    simp only [processSectionsAux]
    rw [if_pos h]

/-- The fuel of `processSectionsAux` is irrelevant as long as it is at
least `left`. -/
theorem processSectionsAux_congr (maps : List MemEntry) :
    ∀ f g bytes left (acc : Acc), left ≤ f → left ≤ g →
      processSectionsAux maps f bytes left acc =
        processSectionsAux maps g bytes left acc := by
  intro f
  induction f with
  | zero =>
    intro g bytes left acc hf hg
    obtain rfl : left = 0 := by omega
    cases g with
    | zero => rfl
    | succ g' => simp [processSectionsAux]
  | succ f' ih =>
    intro g bytes left acc hf hg
    cases g with
    | zero =>
      obtain rfl : left = 0 := by omega
      simp [processSectionsAux]
    | succ g' =>
      simp only [processSectionsAux]
      by_cases h16 : left ≤ 16
      · rw [if_pos h16, if_pos h16]
      · rw [if_neg h16, if_neg h16]
        by_cases htr : left - 16 < readU32 bytes 12
        · rw [if_pos htr, if_pos htr]
        · rw [if_neg htr, if_neg htr]
          by_cases hpa : rproc_da_to_pa maps (readU64 bytes 4 % U32) = 0
          · rw [if_pos hpa, if_pos hpa]
          · rw [if_neg hpa, if_neg hpa]
            exact ih g' _ _ _ (by omega) (by omega)

/-- One successful iteration of the section loop. -/
theorem processSections_step (maps : List MemEntry) (bytes : List Nat)
    (left : Nat) (acc : Acc) (h16 : 16 < left)
    (htr : ¬ (left - 16 < readU32 bytes 12))
    (hpa : rproc_da_to_pa maps (readU64 bytes 4 % U32) ≠ 0) :
    processSections maps bytes left acc =
      processSections maps (bytes.drop (16 + readU32 bytes 12))
        (left - 16 - readU32 bytes 12) (stepAcc maps bytes acc) := by
  obtain ⟨m, rfl⟩ : ∃ m, left = m + 1 := ⟨left - 1, by omega⟩
  show processSectionsAux maps (m + 1) bytes (m + 1) acc = _
  simp only [processSectionsAux]
  rw [if_neg (by omega), if_neg htr, if_neg hpa]
  exact processSectionsAux_congr maps m _ _ _ _ (by omega) (by omega)

theorem readU64_append_right (a b : List Nat) (i : Nat) :
    readU64 (a ++ b) (a.length + i) = readU64 b i := by
  have h4 : a.length + i + 4 = a.length + (i + 4) := by omega
  simp only [readU64, h4, readU32_append_right]

/-- Reading the header fields of a serialized section. -/
theorem secBytes_reads (s : FwSec) (rest : List Nat) (ht : s.type < U32)
    (hd : s.da < U64) (hl : s.len < U32) (hc : s.content.length = s.len) :
    readU32 (secBytes s ++ rest) 0 = s.type ∧
    readU64 (secBytes s ++ rest) 4 = s.da ∧
    readU32 (secBytes s ++ rest) 12 = s.len ∧
    (secBytes s ++ rest).drop 16 = s.content ++ rest ∧
    (secBytes s ++ rest).length = 16 + s.len + rest.length := by
  have hassoc : secBytes s ++ rest =
      u32le s.type ++ (u64le s.da ++ (u32le s.len ++ (s.content ++ rest))) := by
    simp [secBytes]
  have hassoc2 : secBytes s ++ rest =
      (u32le s.type ++ u64le s.da) ++ (u32le s.len ++ (s.content ++ rest)) := by
    simp [secBytes]
  have hassoc3 : secBytes s ++ rest =
      (u32le s.type ++ u64le s.da ++ u32le s.len) ++ (s.content ++ rest) := by
    simp [secBytes]
  have hhdr : (u32le s.type ++ u64le s.da ++ u32le s.len).length = 16 := by
    simp [u32le_length, u64le_length]
  refine ⟨?_, ?_, ?_, ?_, ?_⟩
  · rw [hassoc]
    exact readU32_u32le _ _ ht
  · rw [hassoc]
    have h := readU64_append_right (u32le s.type)
      (u64le s.da ++ (u32le s.len ++ (s.content ++ rest))) 0
    rw [u32le_length] at h
    simpa [readU64_u64le _ _ hd] using h
  · rw [hassoc2]
    have h := readU32_append_right (u32le s.type ++ u64le s.da)
      (u32le s.len ++ (s.content ++ rest)) 0
    have hlen12 : (u32le s.type ++ u64le s.da).length = 12 := by
      simp [u32le_length, u64le_length]
    rw [hlen12] at h
    simpa [readU32_u32le _ _ hl] using h
  · rw [hassoc3, ← hhdr, List.drop_left]
  · rw [hassoc3, List.length_append, hhdr, List.length_append, hc]
    omega

/-- C3 (amended): the section loop processes a section whenever the
remaining byte count is STRICTLY greater than
`sizeof(struct fw_section)` = 16 — on a well-formed image every
serialized section followed by 1..16 trailing bytes is processed, with
its content written to the translated address — and parsing terminates
silently with success exactly when the remaining count is ≤ 16 (so a
final zero-length section whose header exactly fills the image is
skipped, not processed). -/
theorem section_loop_strict_boundary (maps : List MemEntry) (secs : List FwSec)
    (hwf : ∀ s ∈ secs, secWf maps s) (trail : List Nat)
    (ht1 : 1 ≤ trail.length) (ht16 : trail.length ≤ 16) (acc : Acc) :
    ((processSections maps (serializeSecs secs ++ trail)
        (serializeSecs secs ++ trail).length acc).2 = none ∧
      (processSections maps (serializeSecs secs ++ trail)
        (serializeSecs secs ++ trail).length acc).1.writes =
        acc.writes ++ secs.map (secWrite maps) ∧
      (processSections maps (serializeSecs secs ++ trail)
        (serializeSecs secs ++ trail).length acc).1.nsecs =
        acc.nsecs + secs.length) ∧
    (∀ (bytes : List Nat) (left : Nat) (acc2 : Acc), left ≤ 16 →
      processSections maps bytes left acc2 = (acc2, none)) := by
  refine ⟨?_, fun bytes left acc2 h => processSections_le16 maps bytes left acc2 h⟩
  induction secs generalizing acc with
  | nil =>
    have hlen : (serializeSecs [] ++ trail).length ≤ 16 := by
      simpa [serializeSecs] using ht16
    rw [processSections_le16 maps _ _ acc hlen]
    simp
  | cons s rest ih =>
    obtain ⟨hc, ht, hd, hl, hpa⟩ := hwf s (List.mem_cons_self s rest)
    have hwf' : ∀ x ∈ rest, secWf maps x := fun x hx => hwf x (List.mem_cons_of_mem _ hx)
    have hser : serializeSecs (s :: rest) ++ trail =
        secBytes s ++ (serializeSecs rest ++ trail) := by
      simp [serializeSecs]
    obtain ⟨hr0, hr4, hr12, hdrop, hlen⟩ :=
      secBytes_reads s (serializeSecs rest ++ trail) ht hd hl hc
    have htot : (serializeSecs (s :: rest) ++ trail).length =
        16 + s.len + (serializeSecs rest ++ trail).length := by
      rw [hser, ← hlen]
    have hK : 1 ≤ (serializeSecs rest ++ trail).length := by
      simp only [List.length_append]
      omega
    have hstep := processSections_step maps (serializeSecs (s :: rest) ++ trail)
      ((serializeSecs (s :: rest) ++ trail).length) acc
      (by rw [htot]; omega)
      (by rw [hser, hr12, hlen]; omega)
      (by rw [hser, hr4]; exact hpa)
    have hdrop' : (serializeSecs (s :: rest) ++ trail).drop
        (16 + readU32 (serializeSecs (s :: rest) ++ trail) 12) =
        serializeSecs rest ++ trail := by
      rw [hser, hr12]
      have : secBytes s ++ (serializeSecs rest ++ trail) =
          (u32le s.type ++ u64le s.da ++ u32le s.len ++ s.content) ++
            (serializeSecs rest ++ trail) := by
        simp [secBytes]
      rw [this]
      have hhdr : (u32le s.type ++ u64le s.da ++ u32le s.len ++ s.content).length =
          16 + s.len := by
        simp [u32le_length, u64le_length, hc]
        omega
      rw [← hhdr, List.drop_left]
    have hleft' : (serializeSecs (s :: rest) ++ trail).length - 16 -
        readU32 (serializeSecs (s :: rest) ++ trail) 12 =
        (serializeSecs rest ++ trail).length := by
      rw [hser, hr12, hlen]
      omega
    rw [hstep, hdrop', hleft']
    have hcontent : ((serializeSecs (s :: rest) ++ trail).drop 16).take
        (readU32 (serializeSecs (s :: rest) ++ trail) 12) = s.content := by
      rw [hser, hr12, hdrop, ← hc, List.take_left]
    have hpaval : rproc_da_to_pa maps
        (readU64 (serializeSecs (s :: rest) ++ trail) 4 % U32) =
        rproc_da_to_pa maps (s.da % U32) := by
      rw [hser, hr4]
    obtain ⟨ih1, ih2, ih3⟩ := ih hwf' (stepAcc maps (serializeSecs (s :: rest) ++ trail) acc)
    refine ⟨ih1, ?_, ?_⟩
    · rw [ih2, stepAcc_writes, hcontent, hpaval]
      simp [secWrite]
    · rw [ih3, stepAcc_nsecs]
      simp only [List.length_cons]
      omega

/-- C3 counterexample: the image "RPRC", version 0, `header_len` 0,
followed by exactly one 16-byte section header `{type=1, da=0, len=0}` —
remaining count 16 = `sizeof(struct fw_section)`.  The claim says the
section is still processed (as a no-op write) and that silent success
happens only below 16; the code's strict `left > sizeof` comparison
skips it: zero sections processed, no write, yet silent success. -/
theorem section_loop_boundary_counterexample :
    (((rprcMagic ++ u32le 0 ++ u32le 0 ++ (u32le 1 ++ u64le 0 ++ u32le 0)).length : Int)
        - 12 - 0 = 16) ∧
    (rproc_loader_cont goodOps
        (rprcMagic ++ u32le 0 ++ u32le 0 ++ (u32le 1 ++ u64le 0 ++ u32le 0))
        (mkRproc [⟨0, 4096, 4096⟩])).nsecs = 0 ∧
    (rproc_loader_cont goodOps
        (rprcMagic ++ u32le 0 ++ u32le 0 ++ (u32le 1 ++ u64le 0 ++ u32le 0))
        (mkRproc [⟨0, 4096, 4096⟩])).writes = [] ∧
    (rproc_loader_cont goodOps
        (rprcMagic ++ u32le 0 ++ u32le 0 ++ (u32le 1 ++ u64le 0 ++ u32le 0))
        (mkRproc [⟨0, 4096, 4096⟩])).result = none := by
  refine ⟨by decide, ?_, ?_, ?_⟩ <;> rfl

/-- Witness for C3: one two-byte section at `da = 0` under the table
`{da=0, pa=0x1000, size=0x1000}`, with one trailing byte: the loop
processes exactly that section and writes its bytes at `pa = 0x1000`. -/
theorem section_loop_strict_boundary_witness :
    ((processSections [⟨0, 4096, 4096⟩]
        (serializeSecs [⟨1, 0, 2, [170, 187]⟩] ++ [0])
        (serializeSecs [⟨1, 0, 2, [170, 187]⟩] ++ [0]).length
        ⟨[], 0, 0, none, none⟩).2 = none ∧
      (processSections [⟨0, 4096, 4096⟩]
        (serializeSecs [⟨1, 0, 2, [170, 187]⟩] ++ [0])
        (serializeSecs [⟨1, 0, 2, [170, 187]⟩] ++ [0]).length
        ⟨[], 0, 0, none, none⟩).1.writes = [(4096, [170, 187])] ∧
      (processSections [⟨0, 4096, 4096⟩]
        (serializeSecs [⟨1, 0, 2, [170, 187]⟩] ++ [0])
        (serializeSecs [⟨1, 0, 2, [170, 187]⟩] ++ [0]).length
        ⟨[], 0, 0, none, none⟩).1.nsecs = 1) ∧
    processSections [⟨0, 4096, 4096⟩] [7, 7] 2 ⟨[], 0, 0, none, none⟩ =
      (⟨[], 0, 0, none, none⟩, none) := by
  have h := section_loop_strict_boundary [⟨0, 4096, 4096⟩] [⟨1, 0, 2, [170, 187]⟩]
    (by decide) [0] (by decide) (by decide) ⟨[], 0, 0, none, none⟩
  refine ⟨⟨h.1.1, ?_, ?_⟩, h.2 [7, 7] 2 ⟨[], 0, 0, none, none⟩ (by decide)⟩
  · rw [h.1.2.1]
    rfl
  · rw [h.1.2.2]
    rfl

/-! ## C4 — registration -/

/-- C4 counterexample: registering the name "ipu" twice succeeds both
times (return value 0, not `-EEXIST`) and leaves two records named
"ipu" in the registry — `rproc_register` never looks for an existing
record, so the claim's EXISTS failure and unchanged registry are
refuted. -/
theorem register_duplicate_counterexample :
    (rproc_register [] true (some "ipu") true []).2 = 0 ∧
    (rproc_register (rproc_register [] true (some "ipu") true []).1
        true (some "ipu") true []).2 = 0 ∧
    (rproc_register (rproc_register [] true (some "ipu") true []).1
        true (some "ipu") true []).1 =
      [("ipu", mkRproc []), ("ipu", mkRproc [])] := by
  exact ⟨rfl, rfl, rfl⟩

/-- C4 (amended): `rproc_register` performs no duplicate check — every
call with non-null `dev`, `name` and `ops` succeeds (returns 0) and
appends a record in state `RPROC_OFFLINE` with refcount 0, whether or
not the name is already registered; a null `dev`, `name` or `ops` fails
with `-EINVAL` and leaves the registry unchanged. -/
theorem register_appends_offline (regs : Registry) (n : String)
    (maps : List MemEntry) :
    (rproc_register regs true (some n) true maps).2 = 0 ∧
    (rproc_register regs true (some n) true maps).1 =
      regs ++ [(n, mkRproc maps)] ∧
    (mkRproc maps).state = .offline ∧
    (mkRproc maps).count = 0 ∧
    (∀ (hasDev hasOps : Bool) (name : Option String),
      hasDev = false ∨ hasOps = false ∨ name = none →
        rproc_register regs hasDev name hasOps maps = (regs, -22)) := by
  refine ⟨rfl, rfl, rfl, rfl, ?_⟩
  intro hasDev hasOps name h
  match name with
  | none => rfl
  | some nm =>
    have hcond : hasDev = false ∨ hasOps = false := by
      rcases h with h | h | h
      · exact Or.inl h
      · exact Or.inr h
      · cases h
    show (if hasDev = false ∨ hasOps = false then (regs, (-22 : Int))
      else (regs ++ [(nm, mkRproc maps)], 0)) = (regs, -22)
    rw [if_pos hcond]

/-- Witness for C4 (amended): a concrete successful registration and a
concrete null-ops rejection. -/
theorem register_appends_offline_witness :
    (rproc_register [] true (some "ipu") true []).2 = 0 ∧
    (rproc_register [] true (some "ipu") true []).1 = [] ++ [("ipu", mkRproc [])] ∧
    (mkRproc ([] : List MemEntry)).state = .offline ∧
    (mkRproc ([] : List MemEntry)).count = 0 ∧
    rproc_register [] true (some "ipu") false [] = ([], -22) := by
  have h := register_appends_offline [] "ipu" []
  exact ⟨h.1, h.2.1, h.2.2.1, h.2.2.2.1,
    h.2.2.2.2 true false (some "ipu") (Or.inr (Or.inl rfl))⟩

/-! ## Endpoint-table lemmas (C6, C10) -/

theorem filter_ge_succ (keys : List Nat) (hnd : keys.Nodup) (n : Nat)
    (hmem : n ∈ keys) :
    (keys.filter (fun a => n ≤ a)).length =
      (keys.filter (fun a => n + 1 ≤ a)).length + 1 := by
  induction keys with
  | nil => cases hmem
  | cons k tl ih =>
    rw [List.nodup_cons] at hnd
    rcases List.mem_cons.mp hmem with rfl | htl
    · have hf : tl.filter (fun a => n ≤ a) = tl.filter (fun a => n + 1 ≤ a) := by
        apply List.filter_congr
        intro a ha
        have hne : a ≠ n := fun he => hnd.1 (he ▸ ha)
        simp only [decide_eq_decide]
        omega
      rw [List.filter_cons_of_pos (by simp),
        List.filter_cons_of_neg (by simp), hf, List.length_cons]
    · have hkn : k ≠ n := fun he => hnd.1 (he ▸ htl)
      have ihp := ih hnd.2 htl
      by_cases hk : n ≤ k
      · rw [List.filter_cons_of_pos (by simpa using hk),
          List.filter_cons_of_pos (by simp; omega), List.length_cons,
          List.length_cons, ihp]
      · rw [List.filter_cons_of_neg (by simpa using hk),
          List.filter_cons_of_neg (by simp; omega)]
        exact ihp

/-- With enough fuel, the upward probe returns the smallest unused id
at or above the start. -/
theorem idrFindFreeAux_spec (keys : List Nat) (hnd : keys.Nodup) :
    ∀ (fuel n : Nat), (keys.filter (fun a => n ≤ a)).length < fuel →
      idrFindFreeAux keys fuel n ∉ keys ∧ n ≤ idrFindFreeAux keys fuel n ∧
        ∀ b, n ≤ b → b < idrFindFreeAux keys fuel n → b ∈ keys := by
  intro fuel
  induction fuel with
  | zero => intro n h; exact absurd h (Nat.not_lt_zero _)
  | succ fuel ih =>
    intro n h
    by_cases hm : n ∈ keys
    · have hlen := filter_ge_succ keys hnd n hm
      have hrec := ih (n + 1) (by omega)
      simp only [idrFindFreeAux, if_pos hm]
      refine ⟨hrec.1, by omega, ?_⟩
      intro b hb1 hb2
      by_cases hbn : b = n
      · exact hbn ▸ hm
      · exact hrec.2.2 b (by omega) hb2
    · simp only [idrFindFreeAux, if_neg hm]
      exact ⟨hm, Nat.le_refl n, fun b hb1 hb2 => absurd hb2 (by omega)⟩

/-- `idr_get_new_above`'s id: the smallest unused id ≥ `start`. -/
theorem idrFindFree_spec (t : EptTable) (hnd : (idrKeys t).Nodup) (start : Nat) :
    idrFindFree t start ∉ idrKeys t ∧ start ≤ idrFindFree t start ∧
      ∀ b, start ≤ b → b < idrFindFree t start → b ∈ idrKeys t := by
  apply idrFindFreeAux_spec (idrKeys t) hnd (t.length + 1) start
  have h1 := List.length_filter_le (fun a => start ≤ a) (idrKeys t)
  have h2 : (idrKeys t).length = t.length := List.length_map _ _
  omega

theorem idrSet_not_mem (t : EptTable) (a : Nat) (e : Ept)
    (h : a ∉ idrKeys t) : idrSet t a e = t := by
  induction t with
  | nil => rfl
  | cons p tl ih =>
    simp only [idrKeys, List.map_cons, List.mem_cons, not_or] at h
    simp only [idrSet, List.map_cons]
    rw [if_neg (fun he => h.1 he.symm)]
    have htl := ih (by simpa [idrKeys] using h.2)
    simp only [idrSet] at htl
    rw [htl]

theorem idrSet_cons_self (t : EptTable) (a : Nat) (e0 e : Ept) :
    idrSet ((a, e0) :: t) a e = (a, e) :: idrSet t a e := by
  simp [idrSet]

/-- A `rpmsg_create_ept` call passing `RPMSG_ADDR_ANY` always succeeds,
binding the smallest unused address ≥ 1024. -/
theorem create_ept_any (t : EptTable) (hnd : (idrKeys t).Nodup)
    (cb : Option Nat) (priv : Nat) :
    (rpmsg_create_ept t cb priv RPMSG_ADDR_ANY).2 =
      some ⟨cb, priv, idrFindFree t 1024⟩ ∧
    (rpmsg_create_ept t cb priv RPMSG_ADDR_ANY).1 =
      (idrFindFree t 1024, ⟨cb, priv, idrFindFree t 1024⟩) :: t := by
  have hfree := (idrFindFree_spec t hnd 1024).1
  have hset : ∀ e, idrSet t (idrFindFree t 1024) e = t :=
    fun e => idrSet_not_mem t _ e hfree
  constructor
  · simp [rpmsg_create_ept, idr_get_new_above, RP_MSG_RESERVED_ADDRESSES]
  · simp [rpmsg_create_ept, idr_get_new_above, RP_MSG_RESERVED_ADDRESSES,
      idrSet_cons_self, hset]

/-- A `rpmsg_create_ept` call requesting a free concrete address claims
exactly that address. -/
theorem create_ept_fixed_free (t : EptTable) (hnd : (idrKeys t).Nodup)
    (cb : Option Nat) (priv addr : Nat) (hne : addr ≠ RPMSG_ADDR_ANY)
    (hfree : addr ∉ idrKeys t) :
    (rpmsg_create_ept t cb priv addr).2 = some ⟨cb, priv, addr⟩ ∧
    (rpmsg_create_ept t cb priv addr).1 = (addr, ⟨cb, priv, addr⟩) :: t := by
  have hff : idrFindFree t addr = addr := by
    show idrFindFreeAux (idrKeys t) (t.length + 1) addr = addr
    simp only [idrFindFreeAux, if_neg hfree]
  have hset : ∀ e, idrSet t addr e = t := fun e => idrSet_not_mem t addr e hfree
  constructor
  · simp [rpmsg_create_ept, idr_get_new_above, hne, hff]
  · simp [rpmsg_create_ept, idr_get_new_above, hne, hff, idrSet_cons_self, hset]

/-- A `rpmsg_create_ept` call requesting an already-bound concrete
address fails (returns NULL). -/
theorem create_ept_fixed_bound (t : EptTable) (hnd : (idrKeys t).Nodup)
    (cb : Option Nat) (priv addr : Nat) (hne : addr ≠ RPMSG_ADDR_ANY)
    (hbound : addr ∈ idrKeys t) :
    (rpmsg_create_ept t cb priv addr).2 = none := by
  have hfree := (idrFindFree_spec t hnd addr).1
  have hneq : idrFindFree t addr ≠ addr := by
    intro he
    rw [he] at hfree
    exact hfree hbound
  simp only [rpmsg_create_ept, idr_get_new_above]
  rw [if_neg hne, if_pos ⟨hne, hneq⟩]

theorem create_ept_any_pair (t : EptTable) (hnd : (idrKeys t).Nodup)
    (cb : Option Nat) (priv : Nat) :
    rpmsg_create_ept t cb priv RPMSG_ADDR_ANY =
      ((idrFindFree t 1024, ⟨cb, priv, idrFindFree t 1024⟩) :: t,
        some ⟨cb, priv, idrFindFree t 1024⟩) := by
  have h := create_ept_any t hnd cb priv
  exact Prod.ext h.2 h.1

theorem allocatedAddrs_cons_some (e : Ept) (rs : List (Option Ept)) :
    allocatedAddrs (some e :: rs) = e.addr :: allocatedAddrs rs := by
  simp [allocatedAddrs]

theorem idrKeys_cons (p : Nat × Ept) (t : EptTable) :
    idrKeys (p :: t) = p.1 :: idrKeys t := by
  simp [idrKeys]

/-- Any number of `RPMSG_ADDR_ANY` allocations yields pairwise-distinct
fresh addresses, and the table keys grow accordingly. -/
theorem runCreates_any_spec (n : Nat) :
    ∀ (t : EptTable), (idrKeys t).Nodup →
      (allocatedAddrs (runCreates t (List.replicate n .anyAddr)).2).Nodup ∧
      (∀ x ∈ allocatedAddrs (runCreates t (List.replicate n .anyAddr)).2,
        1024 ≤ x ∧ x ∉ idrKeys t) ∧
      idrKeys (runCreates t (List.replicate n .anyAddr)).1 =
        (allocatedAddrs (runCreates t (List.replicate n .anyAddr)).2).reverse ++
          idrKeys t := by
  induction n with
  | zero =>
    intro t hnd
    simp [runCreates, allocatedAddrs]
  | succ n ih =>
    intro t hnd
    have hspec := idrFindFree_spec t hnd 1024
    have hpair := create_ept_any_pair t hnd none 0
    have hrun : runCreates t (List.replicate (n + 1) .anyAddr) =
        ((runCreates ((idrFindFree t 1024, ⟨none, 0, idrFindFree t 1024⟩) :: t)
            (List.replicate n .anyAddr)).1,
          some ⟨none, 0, idrFindFree t 1024⟩ ::
            (runCreates ((idrFindFree t 1024, ⟨none, 0, idrFindFree t 1024⟩) :: t)
              (List.replicate n .anyAddr)).2) := by
      rw [List.replicate_succ]
      show runCreates t (.anyAddr :: List.replicate n .anyAddr) = _
      simp only [runCreates, EptReq.addr, hpair]
    have hnd1 : (idrKeys ((idrFindFree t 1024, ⟨none, 0, idrFindFree t 1024⟩) :: t)).Nodup := by
      rw [idrKeys_cons, List.nodup_cons]
      exact ⟨hspec.1, hnd⟩
    obtain ⟨ih1, ih2, ih3⟩ :=
      ih ((idrFindFree t 1024, ⟨none, 0, idrFindFree t 1024⟩) :: t) hnd1
    rw [hrun]
    simp only [allocatedAddrs_cons_some]
    rw [idrKeys_cons] at ih2 ih3
    refine ⟨?_, ?_, ?_⟩
    · rw [List.nodup_cons]
      refine ⟨fun hmem => ?_, ih1⟩
      have := (ih2 _ hmem).2
      simp at this
    · intro x hx
      rcases List.mem_cons.mp hx with rfl | hx'
      · exact ⟨hspec.2.1, hspec.1⟩
      · have := ih2 x hx'
        simp only [List.mem_cons, not_or] at this
        exact ⟨this.1, this.2.2⟩
    · rw [ih3, List.reverse_cons, List.append_assoc]
      simp

/-- C6 (amended): on a transport with a well-formed endpoint table,
(i) a `create_endpoint` call passing `ADDR_ANY` is assigned the smallest
free address ≥ 1024, (ii) a call passing a free concrete address claims
exactly that address, (iii) a call passing a bound concrete address
fails, and (iv) addresses allocated by a sequence of `ADDR_ANY` calls
are pairwise distinct and ≥ 1024.  (Distinctness is stated for all-`ADDR_ANY`
sequences: a failed concrete-address call in between corrupts the table
and lets an `ADDR_ANY` address be handed out twice.) -/
theorem create_ept_address_policy (t : EptTable) (hnd : (idrKeys t).Nodup)
    (cb : Option Nat) (priv : Nat) :
    (∃ e, (rpmsg_create_ept t cb priv RPMSG_ADDR_ANY).2 = some e ∧
      1024 ≤ e.addr ∧ e.addr ∉ idrKeys t ∧
      (∀ b, 1024 ≤ b → b < e.addr → b ∈ idrKeys t)) ∧
    (∀ addr, addr ≠ RPMSG_ADDR_ANY → addr ∉ idrKeys t →
      (rpmsg_create_ept t cb priv addr).2 = some ⟨cb, priv, addr⟩ ∧
      (rpmsg_create_ept t cb priv addr).1 = (addr, ⟨cb, priv, addr⟩) :: t) ∧
    (∀ addr, addr ≠ RPMSG_ADDR_ANY → addr ∈ idrKeys t →
      (rpmsg_create_ept t cb priv addr).2 = none) ∧
    (∀ n, (allocatedAddrs (runCreates t (List.replicate n .anyAddr)).2).Nodup ∧
      ∀ x ∈ allocatedAddrs (runCreates t (List.replicate n .anyAddr)).2,
        1024 ≤ x) := by
  have hspec := idrFindFree_spec t hnd 1024
  refine ⟨⟨⟨cb, priv, idrFindFree t 1024⟩, (create_ept_any t hnd cb priv).1,
      hspec.2.1, hspec.1, hspec.2.2⟩, ?_, ?_, ?_⟩
  · intro addr hne hfree
    exact create_ept_fixed_free t hnd cb priv addr hne hfree
  · intro addr hne hbound
    exact create_ept_fixed_bound t hnd cb priv addr hne hbound
  · intro n
    obtain ⟨h1, h2, _⟩ := runCreates_any_spec n t hnd
    exact ⟨h1, fun x hx => (h2 x hx).1⟩

/-- C6 counterexample: from an empty table, the call sequence
`[ADDR_ANY, concrete 1024, ADDR_ANY]` returns the addresses
`[1024, failure, 1024]`: the failed concrete call removes the wrong idr
entry (id `request`, not `tmpaddr`), so the address 1024 allocated by
the first `ADDR_ANY` call is handed out again by the third — the
claim's "addresses allocated via ADDR_ANY are pairwise distinct" fails
for this sequence of `create_endpoint` calls. -/
theorem any_alloc_duplicate_counterexample :
    (runCreates [] [EptReq.anyAddr, EptReq.fixed 1024, EptReq.anyAddr]).2 =
      [some ⟨none, 0, 1024⟩, none, some ⟨none, 0, 1024⟩] := by
  decide

/-- Witness for C6: on the table with the name service pre-bound at 53,
requesting free address 1024 claims it, requesting bound address 53
fails, and three `ADDR_ANY` allocations are pairwise distinct. -/
theorem create_ept_address_policy_witness :
    (rpmsg_create_ept [(53, ⟨some 1, 0, 53⟩)] (some 2) 7 1024).2 =
      some ⟨some 2, 7, 1024⟩ ∧
    (rpmsg_create_ept [(53, ⟨some 1, 0, 53⟩)] (some 2) 7 53).2 = none ∧
    (allocatedAddrs (runCreates [(53, ⟨some 1, 0, 53⟩)]
        (List.replicate 3 .anyAddr)).2).Nodup := by
  have h := create_ept_address_policy [(53, ⟨some 1, 0, 53⟩)] (by decide) (some 2) 7
  exact ⟨(h.2.1 1024 (by decide) (by decide)).1,
    h.2.2.1 53 (by decide) (by decide), (h.2.2.2 3).1⟩

/-- C10: requesting concrete address 1024 on a table where 1024 is
bound fails as it should, but the error path (`idr_remove(request)`
instead of `idr_remove(tmpaddr)`) removes the PRE-EXISTING endpoint
bound at 1024 and leaves a dangling entry at the freshly allocated id
1025 — the table is not left as it was. -/
theorem create_ept_rollback_damages_table :
    (rpmsg_create_ept [(1024, ⟨some 1, 5, 1024⟩)] (some 2) 7 1024).2 = none ∧
    (rpmsg_create_ept [(1024, ⟨some 1, 5, 1024⟩)] (some 2) 7 1024).1 =
      [(1025, ⟨some 2, 7, 0⟩)] := by
  decide

/-! ## C7 — RX dispatch -/

/-- C7 (amended): one invocation of the receive callback consumes
exactly ONE used RX buffer — the oldest one the remote published — not
all of them.  For that message the endpoint bound at its `dst` (and no
other endpoint: the result carries a single dispatch) gets its callback
invoked with `(payload, len, user_context, src)`; a `dst` with no
endpoint (or a NULL callback) is warned about and dropped; in either
case the slot is re-published on the RX ring and the remote is kicked.
With no used buffer pending, nothing happens. -/
theorem recv_done_dispatch (s : VrpState) :
    (s.rxUsed = [] → rpmsg_recv_done s = (s, .nothing)) ∧
    (∀ msg rest, s.rxUsed = msg :: rest →
      (rpmsg_recv_done s).1.rxUsed = rest ∧
      (rpmsg_recv_done s).1.rxAvail = s.rxAvail + 1 ∧
      (rpmsg_recv_done s).1.kicked = true ∧
      (rpmsg_recv_done s).1.endpoints = s.endpoints ∧
      (∀ e c, idr_find s.endpoints msg.dst = some e → e.cb = some c →
        (rpmsg_recv_done s).2 = .delivered c msg.data msg.len e.priv msg.src) ∧
      (idr_find s.endpoints msg.dst = none → (rpmsg_recv_done s).2 = .dropped) ∧
      (∀ e, idr_find s.endpoints msg.dst = some e → e.cb = none →
        (rpmsg_recv_done s).2 = .dropped)) := by
  obtain ⟨ru, eps, avail, kick⟩ := s
  constructor
  · intro h
    subst h
    rfl
  · intro msg rest h
    subst h
    refine ⟨rfl, rfl, rfl, rfl, ?_, ?_, ?_⟩
    · intro e c he hc
      simp [rpmsg_recv_done, he, hc]
    · intro he
      simp [rpmsg_recv_done, he]
    · intro e he hc
      simp [rpmsg_recv_done, he, hc]

/-- C7 counterexample: two used buffers are pending; one callback
invocation delivers only the first and leaves the second still queued —
the claim's "all used RX buffers are drained" per invocation fails. -/
theorem recv_done_single_buffer_counterexample :
    (rpmsg_recv_done ⟨[⟨100, 1024, 2, [1, 2]⟩, ⟨100, 1025, 2, [3, 4]⟩],
        [(1024, ⟨some 1, 0, 1024⟩), (1025, ⟨some 2, 0, 1025⟩)], 0, false⟩).1.rxUsed =
      [⟨100, 1025, 2, [3, 4]⟩] ∧
    (rpmsg_recv_done ⟨[⟨100, 1024, 2, [1, 2]⟩, ⟨100, 1025, 2, [3, 4]⟩],
        [(1024, ⟨some 1, 0, 1024⟩), (1025, ⟨some 2, 0, 1025⟩)], 0, false⟩).2 =
      .delivered 1 [1, 2] 2 0 100 := by
  decide

/-- Witness for C7: a message to 1024 is delivered to the endpoint
bound there; a message to an unbound address is dropped; both
re-publish the slot. -/
theorem recv_done_dispatch_witness :
    (rpmsg_recv_done ⟨[⟨7, 1024, 1, [9]⟩], [(1024, ⟨some 3, 4, 1024⟩)], 5, false⟩).1.rxUsed =
      [] ∧
    (rpmsg_recv_done ⟨[⟨7, 1024, 1, [9]⟩], [(1024, ⟨some 3, 4, 1024⟩)], 5, false⟩).1.rxAvail =
      6 ∧
    (rpmsg_recv_done ⟨[⟨7, 1024, 1, [9]⟩], [(1024, ⟨some 3, 4, 1024⟩)], 5, false⟩).2 =
      .delivered 3 [9] 1 4 7 ∧
    (rpmsg_recv_done ⟨[⟨7, 2000, 1, [9]⟩], [(1024, ⟨some 3, 4, 1024⟩)], 5, false⟩).2 =
      .dropped := by
  have h := (recv_done_dispatch
    ⟨[⟨7, 1024, 1, [9]⟩], [(1024, ⟨some 3, 4, 1024⟩)], 5, false⟩).2 ⟨7, 1024, 1, [9]⟩ [] rfl
  have h2 := (recv_done_dispatch
    ⟨[⟨7, 2000, 1, [9]⟩], [(1024, ⟨some 3, 4, 1024⟩)], 5, false⟩).2 ⟨7, 2000, 1, [9]⟩ [] rfl
  exact ⟨h.1, h.2.1, h.2.2.2.2.1 ⟨some 3, 4, 1024⟩ 3 rfl rfl, h2.2.2.2.2.2.1 rfl⟩

/-! ## C9 — mailbox CRASH -/

/-- C9: delivering `RP_MBOX_CRASH` (0xFFFFFF02) only logs the crash —
the callback's CRASH arm is `pr_err` plus a "todo: smarter error
handling here" comment and `break` — and the remote processor's
lifecycle state is left untouched: it does NOT transition to
`RPROC_CRASHED` (no code in the repository ever assigns that state). -/
theorem mbox_crash_logged_no_transition :
    (∀ v : OmapVproc,
      omap_rpmsg_mbox_callback v RP_MBOX_CRASH = ⟨v, true, false, none⟩) ∧
    (omap_rpmsg_mbox_callback ⟨0, 2, .running⟩ RP_MBOX_CRASH).crashLogged = true ∧
    (omap_rpmsg_mbox_callback ⟨0, 2, .running⟩ RP_MBOX_CRASH).vproc.rprocState =
      .running ∧
    (omap_rpmsg_mbox_callback ⟨0, 2, .running⟩ RP_MBOX_CRASH).vproc.rprocState ≠
      .crashed := by
  exact ⟨fun v => rfl, rfl, rfl, by decide⟩

/-! ## C8 — name service -/

theorem nsMsg_parse (nameBytes : List Nat) (addr flags : Nat)
    (hlen : nameBytes.length = 32) (haddr : addr < U32) (hflags : flags < U32) :
    (nsMsgBytes nameBytes addr flags).take 32 = nameBytes ∧
    readU32 (nsMsgBytes nameBytes addr flags) 32 = addr ∧
    readU32 (nsMsgBytes nameBytes addr flags) 36 = flags := by
  refine ⟨?_, ?_, ?_⟩
  · show (nameBytes ++ u32le addr ++ u32le flags).take 32 = nameBytes
    rw [List.append_assoc, ← hlen, List.take_left]
  · show readU32 (nameBytes ++ u32le addr ++ u32le flags) 32 = addr
    rw [List.append_assoc]
    have h := readU32_append_right nameBytes (u32le addr ++ u32le flags) 0
    rw [hlen] at h
    simpa [readU32_u32le _ _ haddr] using h
  · show readU32 (nameBytes ++ u32le addr ++ u32le flags) 36 = flags
    have hl36 : (nameBytes ++ u32le addr).length = 36 := by
      simp [hlen, u32le_length]
    have h := readU32_append_right (nameBytes ++ u32le addr) (u32le flags) 0
    rw [hl36] at h
    have h2 : readU32 (u32le flags) 0 = flags := by
      simpa using readU32_u32le flags [] hflags
    simpa [h2] using h

theorem takeWhile_length_le_of_zero (l : List Nat) :
    ∀ (i : Nat), l[i]? = some 0 →
      (l.takeWhile (fun b => b ≠ 0)).length ≤ i := by
  induction l with
  | nil =>
    intro i h
    simp at h
  | cons x xs ih =>
    intro i h
    cases i with
    | zero =>
      simp only [List.getElem?_cons_zero, Option.some.injEq] at h
      simp [List.takeWhile_cons, h]
    | succ n =>
      simp only [List.getElem?_cons_succ] at h
      have hrec := ih n h
      by_cases hx : x = 0
      · simp [List.takeWhile_cons, hx]
      · have hstep : (x :: xs).takeWhile (fun b => b ≠ 0) =
            x :: xs.takeWhile (fun b => b ≠ 0) := by
          simp [List.takeWhile_cons, hx]
        rw [hstep, List.length_cons]
        omega

theorem getElem?_set_self_list (l : List Nat) :
    ∀ (i a : Nat), i < l.length → (l.set i a)[i]? = some a := by
  induction l with
  | nil =>
    intro i a h
    simp at h
  | cons x xs ih =>
    intro i a h
    cases i with
    | zero => simp
    | succ n =>
      simp only [List.set_cons_succ, List.getElem?_cons_succ]
      exact ih n a (by simpa using h)

theorem eraseP_append_no_match (p : NsChannel → Bool) :
    ∀ (l₁ l₂ : List NsChannel), (∀ b ∈ l₁, p b = false) →
      List.eraseP p (l₁ ++ l₂) = l₁ ++ List.eraseP p l₂ := by
  intro l₁
  induction l₁ with
  | nil =>
    intro l₂ _
    simp
  | cons x xs ih =>
    intro l₂ h
    have hx := h x (List.mem_cons_self x xs)
    simp [List.eraseP_cons, hx, ih l₂ (fun b hb => h b (List.mem_cons_of_mem _ hb))]

/-- C8: on the name-service endpoint, a message whose length differs
from `sizeof(struct rpmsg_ns_msg)` (40) is rejected with no effect; a
valid CREATE message `{name, addr, flags=0}` results in exactly one
channel `{name, src=ADDR_ANY, dst=addr}` visible to the bus, where the
name is forced to be null-terminated at byte 31 before use (so the
effective name has at most 31 bytes); and a subsequent DESTROY message
with the same name and addr removes it again. -/
theorem ns_create_destroy_effect (chans : List NsChannel) (nameBytes : List Nat)
    (addr : Nat) (hlen : nameBytes.length = 32) (haddr : addr < U32)
    (hnone : ∀ c ∈ chans,
      ¬(c.name = cstr (nameBytes.set 31 0) ∧ c.dst = addr)) :
    (∀ l, l ≠ 40 → rpmsg_ns_cb chans (nsMsgBytes nameBytes addr 0) l = chans) ∧
    rpmsg_ns_cb chans (nsMsgBytes nameBytes addr 0) 40 =
      chans ++ [⟨cstr (nameBytes.set 31 0), RPMSG_ADDR_ANY, addr⟩] ∧
    (rpmsg_ns_cb chans (nsMsgBytes nameBytes addr 0) 40).countP
      (fun c => decide (c.name = cstr (nameBytes.set 31 0) ∧
        c.src = RPMSG_ADDR_ANY ∧ c.dst = addr)) = 1 ∧
    (cstr (nameBytes.set 31 0)).length ≤ 31 ∧
    rpmsg_ns_cb (rpmsg_ns_cb chans (nsMsgBytes nameBytes addr 0) 40)
      (nsMsgBytes nameBytes addr 1) 40 = chans := by
  obtain ⟨htake0, haddr0, hflags0⟩ :=
    nsMsg_parse nameBytes addr 0 hlen haddr (by decide)
  obtain ⟨htake1, haddr1, hflags1⟩ :=
    nsMsg_parse nameBytes addr 1 hlen haddr (by decide)
  have hcreate : rpmsg_ns_cb chans (nsMsgBytes nameBytes addr 0) 40 =
      chans ++ [⟨cstr (nameBytes.set 31 0), RPMSG_ADDR_ANY, addr⟩] := by
    simp only [rpmsg_ns_cb]
    rw [if_neg (by simp), htake0, haddr0, hflags0]
    simp [ns_create_channel]
  refine ⟨?_, hcreate, ?_, ?_, ?_⟩
  · intro l hl
    simp [rpmsg_ns_cb, hl]
  · rw [hcreate, List.countP_append]
    have hzero : chans.countP
        (fun c => decide (c.name = cstr (nameBytes.set 31 0) ∧
          c.src = RPMSG_ADDR_ANY ∧ c.dst = addr)) = 0 := by
      apply List.countP_eq_zero.mpr
      intro c hc
      simp only [decide_eq_true_eq, not_and]
      intro hn _ hd
      exact hnone c hc ⟨hn, hd⟩
    rw [hzero]
    simp
  · have hz : (nameBytes.set 31 0)[31]? = some 0 :=
      getElem?_set_self_list nameBytes 31 0 (by omega)
    exact takeWhile_length_le_of_zero (nameBytes.set 31 0) 31 hz
  · rw [hcreate]
    simp only [rpmsg_ns_cb]
    rw [if_neg (by simp), htake1, haddr1, hflags1]
    rw [if_pos (by decide)]
    show List.eraseP _ (chans ++ [_]) = chans
    rw [eraseP_append_no_match _ chans _ ?hno]
    case hno =>
      intro b hb
      simp only [decide_eq_false_iff_not]
      exact hnone b hb
    simp [List.eraseP_cons]

/-- Witness for C8: the CREATE message `{name="echo", addr=99}` on an
empty bus creates exactly the channel
`{name="echo", src=ADDR_ANY, dst=99}`; the matching DESTROY removes it;
a 39-byte delivery of the same bytes is rejected. -/
theorem ns_create_destroy_effect_witness :
    rpmsg_ns_cb []
      (nsMsgBytes [101, 99, 104, 111, 0, 0, 0, 0, 0, 0, 0, 0, 0, 0, 0, 0,
        0, 0, 0, 0, 0, 0, 0, 0, 0, 0, 0, 0, 0, 0, 0, 0] 99 0) 40 =
      [⟨[101, 99, 104, 111], RPMSG_ADDR_ANY, 99⟩] ∧
    rpmsg_ns_cb [⟨[101, 99, 104, 111], RPMSG_ADDR_ANY, 99⟩]
      (nsMsgBytes [101, 99, 104, 111, 0, 0, 0, 0, 0, 0, 0, 0, 0, 0, 0, 0,
        0, 0, 0, 0, 0, 0, 0, 0, 0, 0, 0, 0, 0, 0, 0, 0] 99 1) 40 = [] ∧
    rpmsg_ns_cb []
      (nsMsgBytes [101, 99, 104, 111, 0, 0, 0, 0, 0, 0, 0, 0, 0, 0, 0, 0,
        0, 0, 0, 0, 0, 0, 0, 0, 0, 0, 0, 0, 0, 0, 0, 0] 99 0) 39 = [] := by
  have h := ns_create_destroy_effect []
    [101, 99, 104, 111, 0, 0, 0, 0, 0, 0, 0, 0, 0, 0, 0, 0,
      0, 0, 0, 0, 0, 0, 0, 0, 0, 0, 0, 0, 0, 0, 0, 0] 99
    (by decide) (by decide) (by simp)
  refine ⟨?_, ?_, h.1 39 (by decide)⟩
  · rw [h.2.1]
    rfl
  · have hd := h.2.2.2.2
    rw [h.2.1] at hd
    simpa using hd

end Rpmsg
